import Mathlib

/-
  Shallow embedding of `src/structs/property/property.h` (template struct
  `Property<T>`): an observable value container with a write pipeline
  (equality short-circuit, coercion, validation, mutation, listener
  notification, one-hop binding propagation), a listener registry with a
  FIFO freelist of identifiers, and a directed binding graph.

  Bindings in the source are raw pointers `Property<T>*`; we model the heap
  of containers as a `World`: a total map from container identifiers (`Nat`)
  to container states.  The assignment operator takes `T& newValue` by
  non-const reference and every coercer and listener mutates it in place;
  we model this by threading the current value of that argument explicitly
  through the pipeline, and the final value of the caller's variable is
  returned as part of the write's result.  Observable calls made during a
  write (coercer calls, validator calls, listener invocations, propagation
  offers to bound containers) are recorded in an event trace.
-/

namespace PropertyModel

/-- Callback identifiers, `using CallbackID = size_t` in the source. -/
abbrev CallbackID := Nat

/-- A change callback `function<void(T& oldValue, T& newValue)>`.  The body
may mutate both by-reference arguments, which we model as `fn` returning the
(possibly updated) pair.  `tag` models the identity of the underlying
callable that `target_type()` / `target<...>()` comparison observes in
`RemoveChangeCallback(ChangeCallback)`. -/
structure ChangeCallback (T : Type) where
  tag : Nat
  fn : T → T → T × T

/-- State of one `Property<T>` object, mirroring the private data members of
the source struct.  The mutex `m_mutex` guards no observable state of its
own and is not modelled.  A validator `function<bool(T&)>` is modelled as a
predicate `T → Bool` and a coercer `function<void(T&)>` as an in-place
update `T → T`. -/
structure Property (T : Type) where
  m_value : T
  m_callbacks : List (CallbackID × ChangeCallback T)
  m_bindings : List Nat
  m_availableIDs : List CallbackID
  nextCallbackID : CallbackID
  m_validator : Option (T → Bool)
  m_coerceCallback : Option (T → T)

/-- The heap of `Property<T>` objects: container identifiers stand for the
addresses that the source stores in `m_bindings`. -/
abbrev World (T : Type) := Nat → Property T

/-- Replace the state of the container at address `i`. -/
def updateW {T : Type} (w : World T) (i : Nat) (p : Property T) : World T :=
  fun j => if j = i then p else w j

/-- Observable calls made during a write: a coercer call on container
`prop`, a validator call, a listener invocation with the by-reference
arguments it received, and a propagation offer of `offered` to a bound
target container. -/
inductive Event (T : Type) where
  | coerce (prop : Nat) (input output : T)
  | validate (prop : Nat) (input : T) (ok : Bool)
  | listener (prop : Nat) (id : CallbackID) (oldValue newValue : T)
  | propagate (target : Nat) (offered : T)
  deriving DecidableEq

/-- Value of the by-reference argument after `if (m_coerceCallback)
m_coerceCallback(newValue);`. -/
def applyCoerce {T : Type} (p : Property T) (v : T) : T :=
  match p.m_coerceCallback with
  | some c => c v
  | none => v

/-- Events emitted by the coercer call, when a coercer is set. -/
def coerceEvents {T : Type} (prop : Nat) (p : Property T) (v : T) : List (Event T) :=
  match p.m_coerceCallback with
  | some c => [Event.coerce prop v (c v)]
  | none => []

/-- The test `!m_validator || m_validator(newValue)`. -/
def applyValidator {T : Type} (p : Property T) (v : T) : Bool :=
  match p.m_validator with
  | some f => f v
  | none => true

/-- Events emitted by the validator call, when a validator is set. -/
def validateEvents {T : Type} (prop : Nat) (p : Property T) (v : T) : List (Event T) :=
  match p.m_validator with
  | some f => [Event.validate prop v (f v)]
  | none => []

/-- Result of `NotifyCallbacks(oldValue, newValue)`: both arguments are
passed by reference to every callback, so each callback receives the pair as
left by the previous one, and the final pair is what the enclosing
`operator=` continues with. -/
structure CallbacksResult (T : Type) where
  oldValue : T
  newValue : T
  trace : List (Event T)

/-- `Property<T>::NotifyCallbacks`: invoke every registered callback in map
iteration order (modelled by list order), threading the by-reference
`(oldValue, newValue)` pair through the calls.  `prop` is the address of the
notifying container, used only for the trace. -/
def notifyCallbacks {T : Type} (prop : Nat) :
    List (CallbackID × ChangeCallback T) → T → T → CallbacksResult T
  | [], oldValue, newValue => ⟨oldValue, newValue, []⟩
  | (id, cb) :: rest, oldValue, newValue =>
    let pair := cb.fn oldValue newValue
    let r := notifyCallbacks prop rest pair.1 pair.2
    ⟨r.oldValue, r.newValue, Event.listener prop id oldValue newValue :: r.trace⟩

/-- Result of `NotifyBindings`: the updated heap and the final value of the
by-reference `newValue` argument (which target coercers mutate in place). -/
structure BindingsResult (T : Type) where
  world : World T
  newValue : T
  trace : List (Event T)

/-- `Property<T>::NotifyBindings`: for each bound target, if the target's
current value differs from `newValue`, run the target's coercer on
`newValue` in place, then if the target has no validator or its validator
accepts, store `newValue` into the target directly — without touching the
target's callbacks or the target's own bindings.  The in-place coercion
persists into the next iteration. -/
def notifyBindings {T : Type} [DecidableEq T] :
    World T → List Nat → T → BindingsResult T
  | w, [], nv => ⟨w, nv, []⟩
  | w, b :: rest, nv =>
    let p := w b
    if p.m_value = nv then
      let r := notifyBindings w rest nv
      ⟨r.world, r.newValue, Event.propagate b nv :: r.trace⟩
    else
      let nv1 := applyCoerce p nv
      let evs := coerceEvents b p nv ++ validateEvents b p nv1
      if applyValidator p nv1 then
        let r := notifyBindings (updateW w b { p with m_value := nv1 }) rest nv1
        ⟨r.world, r.newValue, Event.propagate b nv :: (evs ++ r.trace)⟩
      else
        let r := notifyBindings w rest nv1
        ⟨r.world, r.newValue, Event.propagate b nv :: (evs ++ r.trace)⟩

/-- Result of `operator=`: the updated heap, the final value of the caller's
by-reference argument, and the trace of observable calls. -/
structure WriteResult (T : Type) where
  world : World T
  arg : T
  trace : List (Event T)

/-- `Property<T>::operator=(T& newValue)`: equality short-circuit on the raw
input, then coercion in place, then validation, and on acceptance store the
value, notify callbacks, and propagate one hop to the bound targets. -/
def assign {T : Type} [DecidableEq T] (w : World T) (src : Nat) (newValue : T) :
    WriteResult T :=
  let p := w src
  if p.m_value = newValue then
    ⟨w, newValue, []⟩
  else
    let nv1 := applyCoerce p newValue
    let ev1 := coerceEvents src p newValue ++ validateEvents src p nv1
    if applyValidator p nv1 then
      let oldValue := p.m_value
      let w1 := updateW w src { p with m_value := nv1 }
      let rc := notifyCallbacks src p.m_callbacks oldValue nv1
      let rb := notifyBindings w1 p.m_bindings rc.newValue
      ⟨rb.world, rb.newValue, ev1 ++ rc.trace ++ rb.trace⟩
    else
      ⟨w, nv1, ev1⟩

/-- Does the callback map hold an entry under `id`?  (`m_callbacks.erase(id)`
returns the number of erased entries; `operator[]` overwrites an existing
mapped value.) -/
def containsKey {T : Type} (l : List (CallbackID × ChangeCallback T)) (id : CallbackID) : Bool :=
  l.any (fun e => e.1 == id)

/-- `m_callbacks[id] = callback`: overwrite the entry under `id` when
present, insert a new entry otherwise. -/
def mapInsert {T : Type} (l : List (CallbackID × ChangeCallback T)) (id : CallbackID)
    (cb : ChangeCallback T) : List (CallbackID × ChangeCallback T) :=
  if containsKey l id then
    l.map (fun e => if e.1 == id then (id, cb) else e)
  else
    l ++ [(id, cb)]

/-- `Property<T>::AddChangeCallback`: reuse the front of the `m_availableIDs`
queue when it is nonempty, otherwise mint `nextCallbackID++`; store the
callback under the chosen id and return that id. -/
def AddChangeCallback {T : Type} (p : Property T) (cb : ChangeCallback T) :
    Property T × CallbackID :=
  match p.m_availableIDs with
  | [] =>
    ({ p with m_callbacks := mapInsert p.m_callbacks p.nextCallbackID cb,
              nextCallbackID := p.nextCallbackID + 1 }, p.nextCallbackID)
  | id :: rest =>
    ({ p with m_callbacks := mapInsert p.m_callbacks id cb,
              m_availableIDs := rest }, id)

/-- `Property<T>::RemoveChangeCallback(CallbackID)`: erase the entry under
`id` and, only if one existed, push `id` onto the back of the freelist. -/
def RemoveChangeCallback {T : Type} (p : Property T) (id : CallbackID) : Property T :=
  if containsKey p.m_callbacks id then
    { p with m_callbacks := p.m_callbacks.filter (fun e => !(e.1 == id)),
             m_availableIDs := p.m_availableIDs ++ [id] }
  else
    p

/-- Remove the first map entry (in iteration order) whose stored callable
compares equal to `tag`, returning the shrunken list and the removed key. -/
def removeFirstByTag {T : Type} :
    List (CallbackID × ChangeCallback T) → Nat → List (CallbackID × ChangeCallback T) × Option CallbackID
  | [], _ => ([], none)
  | e :: rest, tag =>
    if e.2.tag == tag then
      (rest, some e.1)
    else
      let r := removeFirstByTag rest tag
      (e :: r.1, r.2)

/-- `Property<T>::RemoveChangeCallback(ChangeCallback)`: scan the map in
iteration order for the first entry whose stored callable compares equal to
the given one (by `target_type()` and `target<...>()`, modelled by `tag`);
push its id onto the freelist and erase it.  No match is a no-op. -/
def RemoveChangeCallbackByCallback {T : Type} (p : Property T) (cb : ChangeCallback T) :
    Property T :=
  let r := removeFirstByTag p.m_callbacks cb.tag
  match r.2 with
  | some id =>
    { p with m_callbacks := r.1, m_availableIDs := p.m_availableIDs ++ [id] }
  | none => p

/-- `Property<T>::AddOneWayBind`: `m_bindings.insert(&other)` — set
semantics, so inserting a present element changes nothing. -/
def AddOneWayBind {T : Type} (w : World T) (self other : Nat) : World T :=
  let p := w self
  if other ∈ p.m_bindings then w
  else updateW w self { p with m_bindings := p.m_bindings ++ [other] }

/-- `Property<T>::RemoveOneWayBind`: `m_bindings.erase(&other)`. -/
def RemoveOneWayBind {T : Type} (w : World T) (self other : Nat) : World T :=
  let p := w self
  updateW w self { p with m_bindings := p.m_bindings.filter (fun b => !(b == other)) }

/-- `Property<T>::AddOneWayToSourceBind`: register `self` as a propagation
target of `other`. -/
def AddOneWayToSourceBind {T : Type} (w : World T) (self other : Nat) : World T :=
  AddOneWayBind w other self

/-- `Property<T>::RemoveOneWayToSourceBind`. -/
def RemoveOneWayToSourceBind {T : Type} (w : World T) (self other : Nat) : World T :=
  RemoveOneWayBind w other self

/-- `Property<T>::AddBind`: both directions, source-to-target first. -/
def AddBind {T : Type} (w : World T) (self other : Nat) : World T :=
  AddOneWayToSourceBind (AddOneWayBind w self other) self other

/-- `Property<T>::RemoveBind`. -/
def RemoveBind {T : Type} (w : World T) (self other : Nat) : World T :=
  RemoveOneWayToSourceBind (RemoveOneWayBind w self other) self other

/-- `Property<T>::SetValidator`. -/
def SetValidator {T : Type} (p : Property T) (f : T → Bool) : Property T :=
  { p with m_validator := some f }

/-- `Property<T>::SetCoerceCallback`. -/
def SetCoerceCallback {T : Type} (p : Property T) (c : T → T) : Property T :=
  { p with m_coerceCallback := some c }

/-- The constructor `Property(T value = T())`: empty registries, counter at
zero, no validator, no coercer. -/
def mkProperty {T : Type} (value : T) : Property T :=
  ⟨value, [], [], [], 0, none, none⟩

/-- The constructor `Property(T value, Validator validator)`. -/
def mkPropertyWithValidator {T : Type} (value : T) (f : T → Bool) : Property T :=
  ⟨value, [], [], [], 0, some f, none⟩

/-- The constructor `Property(T value, CoerceCallback coerceCallback)`. -/
def mkPropertyWithCoerce {T : Type} (value : T) (c : T → T) : Property T :=
  ⟨value, [], [], [], 0, none, some c⟩

/-- The constructor `Property(T value, Validator, CoerceCallback)`. -/
def mkPropertyFull {T : Type} (value : T) (f : T → Bool) (c : T → T) : Property T :=
  ⟨value, [], [], [], 0, some f, some c⟩

/-- The `(container, id)` pairs of the listener invocations in a trace, in
order of invocation. -/
def listenerPairs {T : Type} : List (Event T) → List (Nat × CallbackID)
  | [] => []
  | Event.listener p id _ _ :: rest => (p, id) :: listenerPairs rest
  | Event.coerce _ _ _ :: rest => listenerPairs rest
  | Event.validate _ _ _ :: rest => listenerPairs rest
  | Event.propagate _ _ :: rest => listenerPairs rest

/-- The listener invocation events of a trace, in order. -/
def listenerEventsOf {T : Type} : List (Event T) → List (Event T)
  | [] => []
  | Event.listener p id o n :: rest => Event.listener p id o n :: listenerEventsOf rest
  | Event.coerce _ _ _ :: rest => listenerEventsOf rest
  | Event.validate _ _ _ :: rest => listenerEventsOf rest
  | Event.propagate _ _ :: rest => listenerEventsOf rest

/-- The propagation events of a trace, in order. -/
def propagateEvents {T : Type} : List (Event T) → List (Event T)
  | [] => []
  | Event.propagate t v :: rest => Event.propagate t v :: propagateEvents rest
  | Event.coerce _ _ _ :: rest => propagateEvents rest
  | Event.validate _ _ _ :: rest => propagateEvents rest
  | Event.listener _ _ _ _ :: rest => propagateEvents rest

/-- The targets of the propagation events in a trace, in visit order. -/
def propagateTargets {T : Type} : List (Event T) → List Nat
  | [] => []
  | Event.propagate t _ :: rest => t :: propagateTargets rest
  | Event.coerce _ _ _ :: rest => propagateTargets rest
  | Event.validate _ _ _ :: rest => propagateTargets rest
  | Event.listener _ _ _ _ :: rest => propagateTargets rest

/-- Concrete world for the §8 scenario: every container holds `int 5` with
validator `value > 0` and no listeners, coercer, or bindings. -/
def wC1 : World Int := fun _ => mkPropertyWithValidator 5 (fun x => decide (0 < x))

/-- Concrete world: container 0 clamps to `[0,100]` and accepts even values. -/
def wC2 : World Nat := fun _ => mkPropertyFull 0 (fun v => decide (v % 2 = 0)) (fun v => min v 100)

/-- Concrete world: container 0 holds 5 with an increment coercer, so a
write of 5 would be coerced to 6 — were the equality short-circuit not
tested on the raw input first. -/
def wC3 : World Nat := fun _ => mkPropertyWithCoerce 5 (fun v => v + 1)

/-- Concrete chain `A → B → C`: container 0 is bound to container 1 and
container 1 is bound to container 2, all holding 0. -/
def wC4 : World Nat := fun i =>
  if i = 0 then ⟨0, [], [1], [], 0, none, none⟩
  else if i = 1 then ⟨0, [], [2], [], 0, none, none⟩
  else mkProperty 0

/-- Concrete world of two unbound containers holding 0, used to exercise
`AddBind`. -/
def wC5 : World Nat := fun _ => mkProperty 0

/-- Concrete world refuting order-independence of propagation: container 0
is bound to containers 1 and 2 (visited in that order), and container 1 has
the coercer `v + 1`. -/
def wC6 : World Nat := fun i =>
  if i = 0 then ⟨0, [], [1, 2], [], 0, none, none⟩
  else if i = 1 then ⟨0, [], [], [], 0, none, some (fun v => v + 1)⟩
  else mkProperty 0

/-- A sample listener used for the identifier-allocation scenarios. -/
def sampleCallback {T : Type} (t : Nat) : ChangeCallback T := ⟨t, fun o n => (o, n)⟩

/-- Concrete world: container 0 has two listeners — the first replaces
`newValue` by `newValue + 1`, the second by `newValue * 2` — and is bound to
container 1. -/
def wC9 : World Nat := fun i =>
  if i = 0 then
    ⟨0, [(0, ⟨1, fun o n => (o, n + 1)⟩), (1, ⟨2, fun o n => (o, n * 2)⟩)], [1], [], 2, none, none⟩
  else mkProperty 0

/-- Concrete world refuting the coercers-only account of the caller's
argument: container 0 has no coercer and no bindings, and a single listener
that overwrites `newValue` with 42. -/
def wC10 : World Nat := fun i =>
  if i = 0 then ⟨0, [(0, ⟨7, fun o _ => (o, 42)⟩)], [], [], 1, none, none⟩
  else mkProperty 0

/-- Concrete world: container 0 (holding 0, no listeners) is bound to the
single container 1, whose coercer increments the offered value. -/
def wC10b : World Nat := fun i =>
  if i = 0 then ⟨0, [], [1], [], 0, none, none⟩
  else if i = 1 then ⟨0, [], [], [], 0, none, some (fun v => v + 1)⟩
  else mkProperty 0

/-- Operations on the listener registry of a single container, as needed to
state preservation of the registry/freelist invariant. -/
inductive ListenerOp (T : Type) where
  | add (cb : ChangeCallback T)
  | removeId (id : CallbackID)
  | removeCb (cb : ChangeCallback T)

/-- Apply one listener-registry operation. -/
def applyListenerOp {T : Type} (p : Property T) : ListenerOp T → Property T
  | ListenerOp.add cb => (AddChangeCallback p cb).1
  | ListenerOp.removeId id => RemoveChangeCallback p id
  | ListenerOp.removeCb cb => RemoveChangeCallbackByCallback p cb

/-- Apply a sequence of listener-registry operations, first one first. -/
def applyListenerOps {T : Type} (p : Property T) : List (ListenerOp T) → Property T
  | [] => p
  | op :: rest => applyListenerOps (applyListenerOp p op) rest

/-- A concrete operation sequence on the listener registry: register two
listeners, release id 0, register a third (which reuses id 0), then remove
the second by callback value (which frees id 1). -/
def opsC8 : List (ListenerOp Nat) :=
  [ListenerOp.add (sampleCallback 1), ListenerOp.add (sampleCallback 2),
   ListenerOp.removeId 0, ListenerOp.add (sampleCallback 3),
   ListenerOp.removeCb (sampleCallback 2)]

/-- The identifiers currently registered in the callback map. -/
def callbackKeys {T : Type} (p : Property T) : List CallbackID :=
  p.m_callbacks.map (fun e => e.1)

/-- Well-formedness of the listener registry: registered identifiers and
freed identifiers are disjoint, both are below the mint counter, and
neither side holds duplicates. -/
def RegistryWF {T : Type} (p : Property T) : Prop :=
  (∀ id ∈ callbackKeys p, id ∉ p.m_availableIDs) ∧
  (∀ id ∈ callbackKeys p, id < p.nextCallbackID) ∧
  (∀ id ∈ p.m_availableIDs, id < p.nextCallbackID) ∧
  (callbackKeys p).Nodup ∧
  p.m_availableIDs.Nodup

/-! Basic lemmas about the trace projections. -/

theorem listenerPairs_append {T : Type} (l1 l2 : List (Event T)) :
    listenerPairs (l1 ++ l2) = listenerPairs l1 ++ listenerPairs l2 := by
  induction l1 with
  | nil => rfl
  | cons e rest ih => cases e <;> simp [listenerPairs, ih]

theorem listenerEventsOf_append {T : Type} (l1 l2 : List (Event T)) :
    listenerEventsOf (l1 ++ l2) = listenerEventsOf l1 ++ listenerEventsOf l2 := by
  induction l1 with
  | nil => rfl
  | cons e rest ih => cases e <;> simp [listenerEventsOf, ih]

theorem propagateEvents_append {T : Type} (l1 l2 : List (Event T)) :
    propagateEvents (l1 ++ l2) = propagateEvents l1 ++ propagateEvents l2 := by
  induction l1 with
  | nil => rfl
  | cons e rest ih => cases e <;> simp [propagateEvents, ih]

theorem propagateTargets_append {T : Type} (l1 l2 : List (Event T)) :
    propagateTargets (l1 ++ l2) = propagateTargets l1 ++ propagateTargets l2 := by
  induction l1 with
  | nil => rfl
  | cons e rest ih => cases e <;> simp [propagateTargets, ih]

theorem listenerPairs_coerceEvents {T : Type} (b : Nat) (p : Property T) (v : T) :
    listenerPairs (coerceEvents b p v) = [] := by
  cases hc : p.m_coerceCallback <;> simp [coerceEvents, hc, listenerPairs]

theorem listenerPairs_validateEvents {T : Type} (b : Nat) (p : Property T) (v : T) :
    listenerPairs (validateEvents b p v) = [] := by
  cases hf : p.m_validator <;> simp [validateEvents, hf, listenerPairs]

theorem listenerEventsOf_coerceEvents {T : Type} (b : Nat) (p : Property T) (v : T) :
    listenerEventsOf (coerceEvents b p v) = [] := by
  cases hc : p.m_coerceCallback <;> simp [coerceEvents, hc, listenerEventsOf]

theorem listenerEventsOf_validateEvents {T : Type} (b : Nat) (p : Property T) (v : T) :
    listenerEventsOf (validateEvents b p v) = [] := by
  cases hf : p.m_validator <;> simp [validateEvents, hf, listenerEventsOf]

theorem propagateEvents_coerceEvents {T : Type} (b : Nat) (p : Property T) (v : T) :
    propagateEvents (coerceEvents b p v) = [] := by
  cases hc : p.m_coerceCallback <;> simp [coerceEvents, hc, propagateEvents]

theorem propagateEvents_validateEvents {T : Type} (b : Nat) (p : Property T) (v : T) :
    propagateEvents (validateEvents b p v) = [] := by
  cases hf : p.m_validator <;> simp [validateEvents, hf, propagateEvents]

theorem propagateTargets_coerceEvents {T : Type} (b : Nat) (p : Property T) (v : T) :
    propagateTargets (coerceEvents b p v) = [] := by
  cases hc : p.m_coerceCallback <;> simp [coerceEvents, hc, propagateTargets]

theorem propagateTargets_validateEvents {T : Type} (b : Nat) (p : Property T) (v : T) :
    propagateTargets (validateEvents b p v) = [] := by
  cases hf : p.m_validator <;> simp [validateEvents, hf, propagateTargets]

/-! Lemmas about `notifyCallbacks`. -/

theorem notifyCallbacks_listenerPairs {T : Type} (prop : Nat)
    (cbs : List (CallbackID × ChangeCallback T)) :
    ∀ o n, listenerPairs (notifyCallbacks prop cbs o n).trace =
      cbs.map (fun e => (prop, e.1)) := by
  induction cbs with
  | nil => intro o n; rfl
  | cons e rest ih =>
    intro o n
    obtain ⟨id, cb⟩ := e
    simp [notifyCallbacks, listenerPairs, ih]

theorem notifyCallbacks_propagateTargets {T : Type} (prop : Nat)
    (cbs : List (CallbackID × ChangeCallback T)) :
    ∀ o n, propagateTargets (notifyCallbacks prop cbs o n).trace = [] := by
  induction cbs with
  | nil => intro o n; rfl
  | cons e rest ih =>
    intro o n
    obtain ⟨id, cb⟩ := e
    simp [notifyCallbacks, propagateTargets, ih]

theorem notifyCallbacks_propagateEvents {T : Type} (prop : Nat)
    (cbs : List (CallbackID × ChangeCallback T)) :
    ∀ o n, propagateEvents (notifyCallbacks prop cbs o n).trace = [] := by
  induction cbs with
  | nil => intro o n; rfl
  | cons e rest ih =>
    intro o n
    obtain ⟨id, cb⟩ := e
    simp [notifyCallbacks, propagateEvents, ih]

/-! Lemmas about `notifyBindings`. -/

theorem notifyBindings_listenerPairs {T : Type} [DecidableEq T] (bs : List Nat) :
    ∀ (w : World T) nv, listenerPairs (notifyBindings w bs nv).trace = [] := by
  induction bs with
  | nil => intro w nv; rfl
  | cons b rest ih =>
    intro w nv
    by_cases h : (w b).m_value = nv
    · simp [notifyBindings, h, listenerPairs, ih]
    · by_cases h2 : applyValidator (w b) (applyCoerce (w b) nv) = true
      · simp [notifyBindings, h, h2, listenerPairs, listenerPairs_append,
          listenerPairs_coerceEvents, listenerPairs_validateEvents, ih]
      · simp [notifyBindings, h, h2, listenerPairs, listenerPairs_append,
          listenerPairs_coerceEvents, listenerPairs_validateEvents, ih]

theorem notifyBindings_listenerEventsOf {T : Type} [DecidableEq T] (bs : List Nat) :
    ∀ (w : World T) nv, listenerEventsOf (notifyBindings w bs nv).trace = [] := by
  induction bs with
  | nil => intro w nv; rfl
  | cons b rest ih =>
    intro w nv
    by_cases h : (w b).m_value = nv
    · simp [notifyBindings, h, listenerEventsOf, ih]
    · by_cases h2 : applyValidator (w b) (applyCoerce (w b) nv) = true
      · simp [notifyBindings, h, h2, listenerEventsOf, listenerEventsOf_append,
          listenerEventsOf_coerceEvents, listenerEventsOf_validateEvents, ih]
      · simp [notifyBindings, h, h2, listenerEventsOf, listenerEventsOf_append,
          listenerEventsOf_coerceEvents, listenerEventsOf_validateEvents, ih]

theorem notifyBindings_propagateTargets {T : Type} [DecidableEq T] (bs : List Nat) :
    ∀ (w : World T) nv, propagateTargets (notifyBindings w bs nv).trace = bs := by
  induction bs with
  | nil => intro w nv; rfl
  | cons b rest ih =>
    intro w nv
    by_cases h : (w b).m_value = nv
    · simp [notifyBindings, h, propagateTargets, ih]
    · by_cases h2 : applyValidator (w b) (applyCoerce (w b) nv) = true
      · simp [notifyBindings, h, h2, propagateTargets, propagateTargets_append,
          propagateTargets_coerceEvents, propagateTargets_validateEvents, ih]
      · simp [notifyBindings, h, h2, propagateTargets, propagateTargets_append,
          propagateTargets_coerceEvents, propagateTargets_validateEvents, ih]

theorem notifyBindings_world_not_mem {T : Type} [DecidableEq T] (bs : List Nat) :
    ∀ (w : World T) nv x, x ∉ bs → (notifyBindings w bs nv).world x = w x := by
  induction bs with
  | nil => intro w nv x _; rfl
  | cons b rest ih =>
    intro w nv x hx
    have hxb : x ≠ b := fun hh => hx (hh ▸ List.mem_cons_self b rest)
    have hxr : x ∉ rest := fun hh => hx (List.mem_cons_of_mem b hh)
    by_cases h : (w b).m_value = nv
    · simp [notifyBindings, h]
      exact ih w nv x hxr
    · by_cases h2 : applyValidator (w b) (applyCoerce (w b) nv) = true
      · simp [notifyBindings, h, h2]
        rw [ih _ _ _ hxr]
        simp [updateW, hxb]
      · simp [notifyBindings, h, h2]
        exact ih w _ x hxr

/-! Unfolding lemmas for the three branches of `operator=`. -/

theorem assign_eq_case {T : Type} [DecidableEq T] (w : World T) (src : Nat) (v : T)
    (h : (w src).m_value = v) :
    assign w src v = ⟨w, v, []⟩ := by
  simp [assign, h]

theorem assign_reject_case {T : Type} [DecidableEq T] (w : World T) (src : Nat) (v : T)
    (hne : (w src).m_value ≠ v)
    (hrej : applyValidator (w src) (applyCoerce (w src) v) = false) :
    assign w src v = ⟨w, applyCoerce (w src) v,
      coerceEvents src (w src) v ++ validateEvents src (w src) (applyCoerce (w src) v)⟩ := by
  simp [assign, hne, hrej]

theorem assign_commit_case {T : Type} [DecidableEq T] (w : World T) (src : Nat) (v : T)
    (hne : (w src).m_value ≠ v)
    (hacc : applyValidator (w src) (applyCoerce (w src) v) = true) :
    assign w src v =
      ⟨(notifyBindings (updateW w src { w src with m_value := applyCoerce (w src) v })
          (w src).m_bindings
          (notifyCallbacks src (w src).m_callbacks (w src).m_value
            (applyCoerce (w src) v)).newValue).world,
       (notifyBindings (updateW w src { w src with m_value := applyCoerce (w src) v })
          (w src).m_bindings
          (notifyCallbacks src (w src).m_callbacks (w src).m_value
            (applyCoerce (w src) v)).newValue).newValue,
       (coerceEvents src (w src) v ++ validateEvents src (w src) (applyCoerce (w src) v)) ++
         (notifyCallbacks src (w src).m_callbacks (w src).m_value
           (applyCoerce (w src) v)).trace ++
         (notifyBindings (updateW w src { w src with m_value := applyCoerce (w src) v })
           (w src).m_bindings
           (notifyCallbacks src (w src).m_callbacks (w src).m_value
             (applyCoerce (w src) v)).newValue).trace⟩ := by
  simp [assign, hne, hacc]

/-- C1: for every container with a validator and every write whose
(possibly coerced) candidate value the validator rejects, the write is a
silent no-op — the whole heap (so in particular the stored value of the
written container and of every bound container) is unchanged, no listener
is invoked, and no bound target is even offered a value; the call returns
normally, with no error channel in the model. -/
theorem rejected_write_is_silent_noop {T : Type} [DecidableEq T] (w : World T) (src : Nat)
    (v : T) (f : T → Bool) (hval : (w src).m_validator = some f)
    (hrej : f (applyCoerce (w src) v) = false) :
    (assign w src v).world = w ∧ listenerPairs (assign w src v).trace = [] ∧
      propagateTargets (assign w src v).trace = [] := by
  by_cases h : (w src).m_value = v
  · rw [assign_eq_case w src v h]
    exact ⟨rfl, rfl, rfl⟩
  · have hrej' : applyValidator (w src) (applyCoerce (w src) v) = false := by
      simp [applyValidator, hval, hrej]
    rw [assign_reject_case w src v h hrej']
    refine ⟨rfl, ?_, ?_⟩
    · simp [listenerPairs_append, listenerPairs_coerceEvents, listenerPairs_validateEvents]
    · simp [propagateTargets_append, propagateTargets_coerceEvents,
        propagateTargets_validateEvents]

/-- Witness for C1 at the §8 scenario: container holding `int 5` with
validator `0 < value`; the write of `-1` changes nothing and invokes no
listener. -/
theorem rejected_write_is_silent_noop_witness :
    (wC1 0).m_validator = some (fun x => decide (0 < x)) ∧
      (fun x : Int => decide (0 < x)) (applyCoerce (wC1 0) (-1)) = false ∧
      ((assign wC1 0 (-1)).world = wC1 ∧ listenerPairs (assign wC1 0 (-1)).trace = [] ∧
        propagateTargets (assign wC1 0 (-1)).trace = []) :=
  ⟨rfl, by decide, rejected_write_is_silent_noop wC1 0 (-1) _ rfl (by decide)⟩

/-- C2: for a container with both a coercer and a validator, a write of a
value different from the current one first invokes the coercer on the raw
candidate and then invokes the validator on the coerced value: the write's
trace starts with the coercer call on the raw input followed by the
validator call whose input is the coercer's output. -/
theorem coercion_precedes_validation {T : Type} [DecidableEq T] (w : World T) (src : Nat)
    (v : T) (c : T → T) (f : T → Bool) (hc : (w src).m_coerceCallback = some c)
    (hf : (w src).m_validator = some f) (hne : (w src).m_value ≠ v) :
    ∃ rest, (assign w src v).trace =
      Event.coerce src v (c v) :: Event.validate src (c v) (f (c v)) :: rest := by
  have h1 : applyCoerce (w src) v = c v := by simp [applyCoerce, hc]
  have h2 : coerceEvents src (w src) v = [Event.coerce src v (c v)] := by
    simp [coerceEvents, hc]
  have h3 : validateEvents src (w src) (c v) = [Event.validate src (c v) (f (c v))] := by
    simp [validateEvents, hf]
  by_cases hv : applyValidator (w src) (applyCoerce (w src) v) = true
  · rw [assign_commit_case w src v hne hv]
    refine ⟨(notifyCallbacks src (w src).m_callbacks (w src).m_value
        (applyCoerce (w src) v)).trace ++
      (notifyBindings (updateW w src { w src with m_value := applyCoerce (w src) v })
        (w src).m_bindings
        (notifyCallbacks src (w src).m_callbacks (w src).m_value
          (applyCoerce (w src) v)).newValue).trace, ?_⟩
    rw [h1, h2, h3]
    simp
  · have hv' : applyValidator (w src) (applyCoerce (w src) v) = false := by
      simpa using hv
    rw [assign_reject_case w src v hne hv']
    exact ⟨[], by rw [h1, h2, h3]; simp⟩

/-- Witness for C2: container holding 0 with clamp-to-100 coercer and
evenness validator; writing 101 coerces to 100 first and validates 100. -/
theorem coercion_precedes_validation_witness :
    (wC2 0).m_coerceCallback = some (fun v => min v 100) ∧
      (wC2 0).m_validator = some (fun v => decide (v % 2 = 0)) ∧
      (wC2 0).m_value ≠ 101 ∧
      (∃ rest, (assign wC2 0 101).trace =
        Event.coerce 0 101 100 :: Event.validate 0 100 true :: rest) :=
  ⟨rfl, rfl, by decide,
    coercion_precedes_validation wC2 0 101 _ _ rfl rfl (by decide)⟩

/-- C3: a write whose raw input equals the current value (tested before
coercion runs) does nothing at all: the heap is untouched, the trace is
empty — so no coercer call, no validator call, no listener invocation, and
no propagation offer — and the caller's argument is returned unchanged,
even when a coercer is set that would have produced a different value. -/
theorem equal_write_short_circuits {T : Type} [DecidableEq T] (w : World T) (src : Nat)
    (v : T) (h : (w src).m_value = v) :
    assign w src v = ⟨w, v, []⟩ := by
  simp [assign, h]

/-- Witness for C3: container holding 5 with increment coercer; writing 5
is a complete no-op even though coercion would have produced 6. -/
theorem equal_write_short_circuits_witness :
    (wC3 0).m_value = 5 ∧ (wC3 0).m_coerceCallback = some (fun v => v + 1) ∧
      assign wC3 0 5 = ⟨wC3, 5, []⟩ :=
  ⟨rfl, rfl, equal_write_short_circuits wC3 0 5 rfl⟩

/-! Further helper lemmas about `assign`. -/

theorem notifyBindings_single {T : Type} [DecidableEq T] (w : World T) (b : Nat) (nv : T) :
    notifyBindings w [b] nv =
      (if (w b).m_value = nv then ⟨w, nv, [Event.propagate b nv]⟩
       else if applyValidator (w b) (applyCoerce (w b) nv) = true then
         ⟨updateW w b { w b with m_value := applyCoerce (w b) nv }, applyCoerce (w b) nv,
           Event.propagate b nv ::
             (coerceEvents b (w b) nv ++ validateEvents b (w b) (applyCoerce (w b) nv))⟩
       else ⟨w, applyCoerce (w b) nv,
           Event.propagate b nv ::
             (coerceEvents b (w b) nv ++ validateEvents b (w b) (applyCoerce (w b) nv))⟩) := by
  by_cases h : (w b).m_value = nv
  · simp [notifyBindings, h]
  · by_cases h2 : applyValidator (w b) (applyCoerce (w b) nv) = true
    · simp [notifyBindings, h, h2]
    · simp [notifyBindings, h, h2]

theorem assign_world_other {T : Type} [DecidableEq T] (w : World T) (src : Nat) (v : T)
    (x : Nat) (hx : x ≠ src) (hb : x ∉ (w src).m_bindings) :
    (assign w src v).world x = w x := by
  by_cases h : (w src).m_value = v
  · rw [assign_eq_case w src v h]
  · by_cases h2 : applyValidator (w src) (applyCoerce (w src) v) = true
    · rw [assign_commit_case w src v h h2]
      show (notifyBindings _ _ _).world x = w x
      rw [notifyBindings_world_not_mem _ _ _ _ hb]
      simp [updateW, hx]
    · rw [assign_reject_case w src v h (by simpa using h2)]

theorem assign_listenerPairs_committed {T : Type} [DecidableEq T] (w : World T) (src : Nat)
    (v : T) (hne : (w src).m_value ≠ v)
    (hacc : applyValidator (w src) (applyCoerce (w src) v) = true) :
    listenerPairs (assign w src v).trace =
      (w src).m_callbacks.map (fun e => (src, e.1)) := by
  rw [assign_commit_case w src v hne hacc]
  show listenerPairs (_ ++ _ ++ _) = _
  rw [listenerPairs_append, listenerPairs_append, listenerPairs_append,
    listenerPairs_coerceEvents, listenerPairs_validateEvents,
    notifyCallbacks_listenerPairs, notifyBindings_listenerPairs]
  simp

theorem assign_listenerPairs_reject {T : Type} [DecidableEq T] (w : World T) (src : Nat)
    (v : T) (hne : (w src).m_value ≠ v)
    (hrej : applyValidator (w src) (applyCoerce (w src) v) = false) :
    listenerPairs (assign w src v).trace = [] := by
  rw [assign_reject_case w src v hne hrej]
  show listenerPairs (_ ++ _) = _
  rw [listenerPairs_append, listenerPairs_coerceEvents, listenerPairs_validateEvents]
  rfl

theorem assign_propagateTargets_committed {T : Type} [DecidableEq T] (w : World T)
    (src : Nat) (v : T) (hne : (w src).m_value ≠ v)
    (hacc : applyValidator (w src) (applyCoerce (w src) v) = true) :
    propagateTargets (assign w src v).trace = (w src).m_bindings := by
  rw [assign_commit_case w src v hne hacc]
  show propagateTargets (_ ++ _ ++ _) = _
  rw [propagateTargets_append, propagateTargets_append, propagateTargets_append,
    propagateTargets_coerceEvents, propagateTargets_validateEvents,
    notifyCallbacks_propagateTargets, notifyBindings_propagateTargets]
  simp

theorem assign_propagateTargets_reject {T : Type} [DecidableEq T] (w : World T)
    (src : Nat) (v : T) (hne : (w src).m_value ≠ v)
    (hrej : applyValidator (w src) (applyCoerce (w src) v) = false) :
    propagateTargets (assign w src v).trace = [] := by
  rw [assign_reject_case w src v hne hrej]
  show propagateTargets (_ ++ _) = _
  rw [propagateTargets_append, propagateTargets_coerceEvents,
    propagateTargets_validateEvents]
  rfl

theorem assign_listenerPairs_src {T : Type} [DecidableEq T] (w : World T) (src : Nat)
    (v : T) : ∀ pr id, (pr, id) ∈ listenerPairs (assign w src v).trace → pr = src := by
  intro pr id hmem
  by_cases h : (w src).m_value = v
  · rw [assign_eq_case w src v h] at hmem
    simp [listenerPairs] at hmem
  · by_cases h2 : applyValidator (w src) (applyCoerce (w src) v) = true
    · rw [assign_listenerPairs_committed w src v h h2] at hmem
      obtain ⟨e, _, he⟩ := List.mem_map.mp hmem
      exact (congrArg Prod.fst he).symm
    · rw [assign_listenerPairs_reject w src v h (by simpa using h2)] at hmem
      simp at hmem

theorem assign_propagateTargets_sub {T : Type} [DecidableEq T] (w : World T) (src : Nat)
    (v : T) : ∀ t ∈ propagateTargets (assign w src v).trace, t ∈ (w src).m_bindings := by
  intro t hmem
  by_cases h : (w src).m_value = v
  · rw [assign_eq_case w src v h] at hmem
    simp [propagateTargets] at hmem
  · by_cases h2 : applyValidator (w src) (applyCoerce (w src) v) = true
    · rw [assign_propagateTargets_committed w src v h h2] at hmem
      exact hmem
    · rw [assign_propagateTargets_reject w src v h (by simpa using h2)] at hmem
      simp at hmem

theorem assign_world_committed {T : Type} [DecidableEq T] (w : World T) (src : Nat) (v : T)
    (hne : (w src).m_value ≠ v)
    (hacc : applyValidator (w src) (applyCoerce (w src) v) = true) :
    (assign w src v).world =
      (notifyBindings (updateW w src { w src with m_value := applyCoerce (w src) v })
        (w src).m_bindings
        (notifyCallbacks src (w src).m_callbacks (w src).m_value
          (applyCoerce (w src) v)).newValue).world := by
  rw [assign_commit_case w src v hne hacc]

theorem assign_single_binding {T : Type} [DecidableEq T] (w : World T) (src tgt : Nat)
    (v : T) (hst : tgt ≠ src) (hb : (w src).m_bindings = [tgt])
    (hcb : (w src).m_callbacks = []) (hne : (w src).m_value ≠ v)
    (hacc : applyValidator (w src) (applyCoerce (w src) v) = true) :
    ((assign w src v).world src).m_value = applyCoerce (w src) v ∧
    ((assign w src v).world tgt).m_value =
      (if (w tgt).m_value = applyCoerce (w src) v then (w tgt).m_value
       else if applyValidator (w tgt) (applyCoerce (w tgt) (applyCoerce (w src) v)) = true
       then applyCoerce (w tgt) (applyCoerce (w src) v)
       else (w tgt).m_value) := by
  have hwc := assign_world_committed w src v hne hacc
  have hnv : (notifyCallbacks src (w src).m_callbacks (w src).m_value
      (applyCoerce (w src) v)).newValue = applyCoerce (w src) v := by
    rw [hcb]
    rfl
  have hbs : notifyBindings (updateW w src { w src with m_value := applyCoerce (w src) v })
      (w src).m_bindings (applyCoerce (w src) v) =
    notifyBindings (updateW w src { w src with m_value := applyCoerce (w src) v })
      [tgt] (applyCoerce (w src) v) := by rw [hb]
  rw [hnv, hbs] at hwc
  have htgt : updateW w src { w src with m_value := applyCoerce (w src) v } tgt = w tgt := by
    simp [updateW, hst]
  rw [hwc, notifyBindings_single, htgt]
  by_cases h : (w tgt).m_value = applyCoerce (w src) v
  · rw [if_pos h]
    refine ⟨?_, ?_⟩
    · show (updateW w src { w src with m_value := applyCoerce (w src) v } src).m_value = _
      simp [updateW]
    · show (updateW w src { w src with m_value := applyCoerce (w src) v } tgt).m_value = _
      rw [htgt, if_pos h]
  · rw [if_neg h]
    by_cases h2 : applyValidator (w tgt) (applyCoerce (w tgt) (applyCoerce (w src) v)) = true
    · rw [if_pos h2]
      refine ⟨?_, ?_⟩
      · show (updateW (updateW w src { w src with m_value := applyCoerce (w src) v }) tgt
            { w tgt with m_value := applyCoerce (w tgt) (applyCoerce (w src) v) }
            src).m_value = _
        simp [updateW, Ne.symm hst]
      · show (updateW (updateW w src { w src with m_value := applyCoerce (w src) v }) tgt
            { w tgt with m_value := applyCoerce (w tgt) (applyCoerce (w src) v) }
            tgt).m_value = _
        rw [if_neg h, if_pos h2]
        simp [updateW]
    · rw [if_neg h2]
      refine ⟨?_, ?_⟩
      · show (updateW w src { w src with m_value := applyCoerce (w src) v } src).m_value = _
        simp [updateW]
      · show (updateW w src { w src with m_value := applyCoerce (w src) v } tgt).m_value = _
        rw [htgt, if_neg h, if_neg h2]

/-- C4: propagation depth is exactly one hop.  For containers `A → B → C`
(`A` bound to `B`, `B` bound to `C`), a write to `A` never changes `C`'s
state, every listener invoked belongs to `A` (so neither `B`'s nor `C`'s
listeners run), every propagation offer targets `B` (so `B`'s own outgoing
binding to `C` is never triggered), and a committed write updates `B`'s
value through `B`'s own coercer/validator, only when `B`'s value differs
from the propagated value. -/
theorem propagation_is_one_hop {T : Type} [DecidableEq T] (w : World T) (A B C : Nat)
    (v : T) (hBA : B ≠ A) (hCA : C ≠ A) (hCB : C ≠ B)
    (hA : (w A).m_bindings = [B]) (_hB : (w B).m_bindings = [C]) :
    (assign w A v).world C = w C ∧
    (∀ pr id, (pr, id) ∈ listenerPairs (assign w A v).trace → pr = A) ∧
    (∀ t ∈ propagateTargets (assign w A v).trace, t = B) ∧
    ((w A).m_callbacks = [] → (w A).m_value ≠ v →
      applyValidator (w A) (applyCoerce (w A) v) = true →
      ((assign w A v).world B).m_value =
        (if (w B).m_value = applyCoerce (w A) v then (w B).m_value
         else if applyValidator (w B) (applyCoerce (w B) (applyCoerce (w A) v)) = true
         then applyCoerce (w B) (applyCoerce (w A) v)
         else (w B).m_value)) := by
  refine ⟨?_, assign_listenerPairs_src w A v, ?_, ?_⟩
  · exact assign_world_other w A v C hCA (by rw [hA]; simp [hCB])
  · intro t ht
    have := assign_propagateTargets_sub w A v t ht
    rw [hA] at this
    simpa using this
  · intro hcb hne hacc
    exact (assign_single_binding w A B v hBA hA hcb hne hacc).2

/-- Witness for C4 on the concrete chain `0 → 1 → 2` of containers holding
0: writing 5 to container 0 leaves container 2 untouched and sets
container 1 to 5. -/
theorem propagation_is_one_hop_witness :
    (wC4 0).m_bindings = [1] ∧ (wC4 1).m_bindings = [2] ∧
      (assign wC4 0 5).world 2 = wC4 2 ∧
      ((assign wC4 0 5).world 1).m_value = 5 :=
  ⟨rfl, rfl,
    (propagation_is_one_hop wC4 0 1 2 5 (by decide) (by decide) (by decide) rfl rfl).1,
    (propagation_is_one_hop wC4 0 1 2 5 (by decide) (by decide) (by decide) rfl
        rfl).2.2.2 rfl (by decide) rfl⟩

/-! Helper lemmas about `AddBind`. -/

theorem AddOneWayBind_eq {T : Type} (w : World T) (s o : Nat)
    (h : o ∉ (w s).m_bindings) :
    AddOneWayBind w s o =
      updateW w s { w s with m_bindings := (w s).m_bindings ++ [o] } := by
  simp only [AddOneWayBind]
  rw [if_neg h]

theorem AddBind_spec {T : Type} (w : World T) (A B : Nat) (hAB : A ≠ B)
    (hA : (w A).m_bindings = []) (hB : (w B).m_bindings = []) :
    (AddBind w A B) A = { w A with m_bindings := [B] } ∧
    (AddBind w A B) B = { w B with m_bindings := [A] } ∧
    ∀ x, x ≠ A → x ≠ B → (AddBind w A B) x = w x := by
  have hnm : B ∉ (w A).m_bindings := by rw [hA]; simp
  have e1 := AddOneWayBind_eq w A B hnm
  have hw1B : (AddOneWayBind w A B) B = w B := by
    rw [e1]; simp [updateW, Ne.symm hAB]
  have hnm2 : A ∉ ((AddOneWayBind w A B) B).m_bindings := by
    rw [hw1B, hB]; simp
  have e2 : AddBind w A B = updateW (AddOneWayBind w A B) B
      { (AddOneWayBind w A B) B with
        m_bindings := ((AddOneWayBind w A B) B).m_bindings ++ [A] } := by
    show AddOneWayBind (AddOneWayBind w A B) B A = _
    exact AddOneWayBind_eq _ B A hnm2
  refine ⟨?_, ?_, ?_⟩
  · rw [e2]
    have : updateW (AddOneWayBind w A B) B
        { (AddOneWayBind w A B) B with
          m_bindings := ((AddOneWayBind w A B) B).m_bindings ++ [A] } A =
        (AddOneWayBind w A B) A := by
      simp [updateW, hAB]
    rw [this, e1]
    simp [updateW, hA]
  · rw [e2]
    have : updateW (AddOneWayBind w A B) B
        { (AddOneWayBind w A B) B with
          m_bindings := ((AddOneWayBind w A B) B).m_bindings ++ [A] } B =
        { (AddOneWayBind w A B) B with
          m_bindings := ((AddOneWayBind w A B) B).m_bindings ++ [A] } := by
      simp [updateW]
    rw [this, hw1B, hB]
    simp
  · intro x hxA hxB
    rw [e2]
    have : updateW (AddOneWayBind w A B) B
        { (AddOneWayBind w A B) B with
          m_bindings := ((AddOneWayBind w A B) B).m_bindings ++ [A] } x =
        (AddOneWayBind w A B) x := by
      simp [updateW, hxB]
    rw [this, e1]
    simp [updateW, hxA]

/-- C5: two-way bind symmetry.  After `AddBind(A, B)` on two previously
unbound containers, `A` holds `B` among its targets and vice versa; a
committed write to `A` stores the coerced value in `A` and pushes it into
`B` through `B`'s own coercer/validator, and symmetrically for a write to
`B`; and the listeners invoked by a committed write to `A` are exactly
`A`'s registered listeners, once each in registry order — while any write
to `B` only ever invokes listeners registered on `B` (and symmetrically),
so no listener runs as a side effect of a write to the other container. -/
theorem two_way_bind_symmetry {T : Type} [DecidableEq T] (w : World T) (A B : Nat)
    (hAB : A ≠ B) (hA : (w A).m_bindings = []) (hB : (w B).m_bindings = []) :
    ((AddBind w A B) A).m_bindings = [B] ∧
    ((AddBind w A B) B).m_bindings = [A] ∧
    (∀ v, (w A).m_callbacks = [] → (w A).m_value ≠ v →
      applyValidator (w A) (applyCoerce (w A) v) = true →
      ((assign (AddBind w A B) A v).world A).m_value = applyCoerce (w A) v ∧
      ((assign (AddBind w A B) A v).world B).m_value =
        (if (w B).m_value = applyCoerce (w A) v then (w B).m_value
         else if applyValidator (w B) (applyCoerce (w B) (applyCoerce (w A) v)) = true
         then applyCoerce (w B) (applyCoerce (w A) v)
         else (w B).m_value)) ∧
    (∀ v, (w B).m_callbacks = [] → (w B).m_value ≠ v →
      applyValidator (w B) (applyCoerce (w B) v) = true →
      ((assign (AddBind w A B) B v).world B).m_value = applyCoerce (w B) v ∧
      ((assign (AddBind w A B) B v).world A).m_value =
        (if (w A).m_value = applyCoerce (w B) v then (w A).m_value
         else if applyValidator (w A) (applyCoerce (w A) (applyCoerce (w B) v)) = true
         then applyCoerce (w A) (applyCoerce (w B) v)
         else (w A).m_value)) ∧
    (∀ v, (w A).m_value ≠ v → applyValidator (w A) (applyCoerce (w A) v) = true →
      listenerPairs (assign (AddBind w A B) A v).trace =
        (w A).m_callbacks.map (fun e => (A, e.1))) ∧
    (∀ v, (w B).m_value ≠ v → applyValidator (w B) (applyCoerce (w B) v) = true →
      listenerPairs (assign (AddBind w A B) B v).trace =
        (w B).m_callbacks.map (fun e => (B, e.1))) ∧
    (∀ v pr id, (pr, id) ∈ listenerPairs (assign (AddBind w A B) A v).trace → pr = A) ∧
    (∀ v pr id, (pr, id) ∈ listenerPairs (assign (AddBind w A B) B v).trace → pr = B) := by
  obtain ⟨sA, sB, _⟩ := AddBind_spec w A B hAB hA hB
  have eAv : ((AddBind w A B) A).m_value = (w A).m_value := by rw [sA]
  have eBv : ((AddBind w A B) B).m_value = (w B).m_value := by rw [sB]
  have eAcb : ((AddBind w A B) A).m_callbacks = (w A).m_callbacks := by rw [sA]
  have eBcb : ((AddBind w A B) B).m_callbacks = (w B).m_callbacks := by rw [sB]
  have eAb : ((AddBind w A B) A).m_bindings = [B] := by rw [sA]
  have eBb : ((AddBind w A B) B).m_bindings = [A] := by rw [sB]
  have eAc : ∀ u, applyCoerce ((AddBind w A B) A) u = applyCoerce (w A) u := by
    intro u; rw [sA]; rfl
  have eBc : ∀ u, applyCoerce ((AddBind w A B) B) u = applyCoerce (w B) u := by
    intro u; rw [sB]; rfl
  have eAf : ∀ u, applyValidator ((AddBind w A B) A) u = applyValidator (w A) u := by
    intro u; rw [sA]; rfl
  have eBf : ∀ u, applyValidator ((AddBind w A B) B) u = applyValidator (w B) u := by
    intro u; rw [sB]; rfl
  refine ⟨eAb, eBb, ?_, ?_, ?_, ?_, ?_, ?_⟩
  · intro v hcb hne hacc
    have K := assign_single_binding (AddBind w A B) A B v (Ne.symm hAB)
      eAb (by rw [eAcb]; exact hcb) (by rw [eAv]; exact hne)
      (by rw [eAc, eAf]; exact hacc)
    rw [eAc, eBv, eBc, eBf] at K
    exact K
  · intro v hcb hne hacc
    have K := assign_single_binding (AddBind w A B) B A v hAB
      eBb (by rw [eBcb]; exact hcb) (by rw [eBv]; exact hne)
      (by rw [eBc, eBf]; exact hacc)
    rw [eBc, eAv, eAc, eAf] at K
    exact K
  · intro v hne hacc
    have K := assign_listenerPairs_committed (AddBind w A B) A v
      (by rw [eAv]; exact hne) (by rw [eAc, eAf]; exact hacc)
    rw [eAcb] at K
    exact K
  · intro v hne hacc
    have K := assign_listenerPairs_committed (AddBind w A B) B v
      (by rw [eBv]; exact hne) (by rw [eBc, eBf]; exact hacc)
    rw [eBcb] at K
    exact K
  · intro v
    exact assign_listenerPairs_src (AddBind w A B) A v
  · intro v
    exact assign_listenerPairs_src (AddBind w A B) B v

/-- Witness for C5: two fresh containers holding 0; after `AddBind(0, 1)`,
writing 5 to container 0 sets both to 5, and writing 7 to container 1 sets
both to 7. -/
theorem two_way_bind_symmetry_witness :
    ((AddBind wC5 0 1) 0).m_bindings = [1] ∧
    ((AddBind wC5 0 1) 1).m_bindings = [0] ∧
    ((assign (AddBind wC5 0 1) 0 5).world 0).m_value = 5 ∧
    ((assign (AddBind wC5 0 1) 0 5).world 1).m_value = 5 ∧
    ((assign (AddBind wC5 0 1) 1 7).world 1).m_value = 7 ∧
    ((assign (AddBind wC5 0 1) 1 7).world 0).m_value = 7 :=
  ⟨(two_way_bind_symmetry wC5 0 1 (by decide) rfl rfl).1,
   (two_way_bind_symmetry wC5 0 1 (by decide) rfl rfl).2.1,
   ((two_way_bind_symmetry wC5 0 1 (by decide) rfl rfl).2.2.1 5 rfl (by decide) rfl).1,
   ((two_way_bind_symmetry wC5 0 1 (by decide) rfl rfl).2.2.1 5 rfl (by decide) rfl).2,
   ((two_way_bind_symmetry wC5 0 1 (by decide) rfl rfl).2.2.2.1 7 rfl (by decide) rfl).1,
   ((two_way_bind_symmetry wC5 0 1 (by decide) rfl rfl).2.2.2.1 7 rfl (by decide) rfl).2⟩

/-! Helper lemmas about the values offered to bound targets. -/

theorem notifyBindings_first_offer {T : Type} [DecidableEq T] (w : World T) (b : Nat)
    (bs : List Nat) (nv : T) :
    (propagateEvents (notifyBindings w (b :: bs) nv).trace).head? =
      some (Event.propagate b nv) := by
  by_cases h : (w b).m_value = nv
  · simp [notifyBindings, h, propagateEvents]
  · by_cases h2 : applyValidator (w b) (applyCoerce (w b) nv) = true
    · simp [notifyBindings, h, h2, propagateEvents]
    · simp [notifyBindings, h, h2, propagateEvents]

theorem notifyBindings_offers_no_coercer {T : Type} [DecidableEq T] (bs : List Nat) :
    ∀ (w : World T) nv, (∀ b ∈ bs, (w b).m_coerceCallback = none) →
      propagateEvents (notifyBindings w bs nv).trace =
        bs.map (fun b => Event.propagate b nv) := by
  induction bs with
  | nil => intro w nv _; rfl
  | cons b rest ih =>
    intro w nv hnc
    have hb := hnc b (List.mem_cons_self b rest)
    have hv1 : applyCoerce (w b) nv = nv := by simp [applyCoerce, hb]
    have hce : coerceEvents b (w b) nv = [] := by simp [coerceEvents, hb]
    have hrest0 : ∀ x ∈ rest, (w x).m_coerceCallback = none := fun x hx =>
      hnc x (List.mem_cons_of_mem b hx)
    by_cases h : (w b).m_value = nv
    · simp [notifyBindings, h, propagateEvents, ih w nv hrest0]
    · by_cases h2 : applyValidator (w b) nv = true
      · have hrest : ∀ x ∈ rest,
            ((updateW w b { w b with m_value := nv }) x).m_coerceCallback = none := by
          intro x hx
          by_cases hxb : x = b
          · subst hxb
            simpa [updateW] using hb
          · simpa [updateW, hxb] using hrest0 x hx
        simp [notifyBindings, h, h2, propagateEvents, propagateEvents_append, hce,
          propagateEvents_validateEvents, hv1, ih _ _ hrest]
      · simp [notifyBindings, h, h2, propagateEvents, propagateEvents_append, hce,
          propagateEvents_validateEvents, hv1, ih w nv hrest0]

theorem assign_propagateEvents_committed_nocb {T : Type} [DecidableEq T] (w : World T)
    (src : Nat) (v : T) (hne : (w src).m_value ≠ v)
    (hacc : applyValidator (w src) (applyCoerce (w src) v) = true)
    (hcb : (w src).m_callbacks = []) :
    propagateEvents (assign w src v).trace =
      propagateEvents (notifyBindings
        (updateW w src { w src with m_value := applyCoerce (w src) v })
        (w src).m_bindings (applyCoerce (w src) v)).trace := by
  rw [assign_commit_case w src v hne hacc]
  have hnv : (notifyCallbacks src (w src).m_callbacks (w src).m_value
      (applyCoerce (w src) v)).newValue = applyCoerce (w src) v := by
    rw [hcb]
    rfl
  show propagateEvents (_ ++ _ ++ _) = _
  rw [propagateEvents_append, propagateEvents_append, propagateEvents_append,
    propagateEvents_coerceEvents, propagateEvents_validateEvents,
    notifyCallbacks_propagateEvents, hnv]
  simp

/-- C6 counterexample: the claim that every bound target is offered the
value the source committed, independent of other targets' coercers and of
visit order, is false.  In `wC6`, container 0 (holding 0, bound to
containers 1 and 2 in that order) commits the value 5; container 1's
coercer rewrites the shared by-reference argument to 6, so container 2 —
which has no coercer of its own — is offered 6, never 5, and ends up
holding 6 instead of the committed 5. -/
theorem same_value_offered_refuted :
    ((assign wC6 0 5).world 0).m_value = 5 ∧
    (wC6 2).m_coerceCallback = none ∧
    Event.propagate 2 6 ∈ (assign wC6 0 5).trace ∧
    Event.propagate 2 5 ∉ (assign wC6 0 5).trace ∧
    ((assign wC6 0 5).world 2).m_value = 6 ∧
    (6 : Nat) ≠ 5 :=
  ⟨by decide, rfl, by decide, by decide, by decide, by decide⟩

/-- C6 amended: each bound target is offered the running value of the
by-reference `newValue` argument: the first-visited target is offered the
value the source committed, and each later target is offered that value as
further mutated in place by the coercers of earlier-visited targets; in
particular, when no bound target has a coercer, every target is offered
the same committed value. -/
theorem running_value_offered {T : Type} [DecidableEq T] (w : World T) (src : Nat)
    (v : T) (hne : (w src).m_value ≠ v)
    (hacc : applyValidator (w src) (applyCoerce (w src) v) = true)
    (hcb : (w src).m_callbacks = []) :
    (∀ b bs, (w src).m_bindings = b :: bs →
      (propagateEvents (assign w src v).trace).head? =
        some (Event.propagate b (applyCoerce (w src) v))) ∧
    ((∀ b ∈ (w src).m_bindings, (w b).m_coerceCallback = none) →
      propagateEvents (assign w src v).trace =
        (w src).m_bindings.map (fun b => Event.propagate b (applyCoerce (w src) v))) := by
  rw [assign_propagateEvents_committed_nocb w src v hne hacc hcb]
  constructor
  · intro b bs hbs
    rw [hbs]
    exact notifyBindings_first_offer _ b bs _
  · intro hnc
    refine notifyBindings_offers_no_coercer (w src).m_bindings _ _ ?_
    intro b hb
    by_cases hbs : b = src
    · subst hbs
      simpa [updateW] using hnc b hb
    · simpa [updateW, hbs] using hnc b hb

/-- Witness for C6 amended, on `wC6` (first-visited target is offered the
committed 5) and on `wC4` (coercer-free targets are all offered the
committed 5). -/
theorem running_value_offered_witness :
    (propagateEvents (assign wC6 0 5).trace).head? = some (Event.propagate 1 5) ∧
    propagateEvents (assign wC4 0 5).trace = [Event.propagate 1 5] :=
  ⟨(running_value_offered wC6 0 5 (by decide) rfl rfl).1 1 [2] rfl,
   (running_value_offered wC4 0 5 (by decide) rfl rfl).2
     (fun b hb => by rw [List.eq_of_mem_singleton hb]; rfl)⟩

/-- C7: identifier allocation.  While the freelist is empty,
`AddChangeCallback` hands out the monotonic counter values 0, 1, 2, … (it
returns `nextCallbackID` and increments it); when the freelist is nonempty
it reuses its front entry first (FIFO) and leaves the counter alone.
Concretely, from a fresh registry: add A gives id 0, remove id 0, add B
gives id 0 again (freelist reuse), and add C with the freelist empty again
gives id 1 (fresh counter). -/
theorem callback_id_allocation {T : Type} (p : Property T)
    (cb cbA cbB cbC : ChangeCallback T) :
    (p.m_availableIDs = [] →
      (AddChangeCallback p cb).2 = p.nextCallbackID ∧
      (AddChangeCallback p cb).1.nextCallbackID = p.nextCallbackID + 1) ∧
    (∀ i rest, p.m_availableIDs = i :: rest →
      (AddChangeCallback p cb).2 = i ∧
      (AddChangeCallback p cb).1.m_availableIDs = rest ∧
      (AddChangeCallback p cb).1.nextCallbackID = p.nextCallbackID) ∧
    (p.m_callbacks = [] → p.m_availableIDs = [] → p.nextCallbackID = 0 →
      ((AddChangeCallback p cbA).2 = 0 ∧
       (AddChangeCallback (RemoveChangeCallback (AddChangeCallback p cbA).1 0) cbB).2
         = 0 ∧
       (AddChangeCallback (AddChangeCallback (RemoveChangeCallback
           (AddChangeCallback p cbA).1 0) cbB).1 cbC).2 = 1)) := by
  refine ⟨?_, ?_, ?_⟩
  · intro h
    simp [AddChangeCallback, h]
  · intro i rest h
    simp [AddChangeCallback, h]
  · intro h1 h2 h3
    have s1 : AddChangeCallback p cbA =
        ({ p with m_callbacks := [(0, cbA)], m_availableIDs := [],
                  nextCallbackID := 1 }, 0) := by
      simp [AddChangeCallback, h1, h2, h3, mapInsert, containsKey]
    have s2 : RemoveChangeCallback
        ({ p with m_callbacks := [(0, cbA)], m_availableIDs := [],
                  nextCallbackID := 1 } : Property T) 0 =
        { p with m_callbacks := [], m_availableIDs := [0], nextCallbackID := 1 } := by
      simp [RemoveChangeCallback, containsKey]
    have s3 : AddChangeCallback
        ({ p with m_callbacks := [], m_availableIDs := [0],
                  nextCallbackID := 1 } : Property T) cbB =
        ({ p with m_callbacks := [(0, cbB)], m_availableIDs := [],
                  nextCallbackID := 1 }, 0) := by
      simp [AddChangeCallback, mapInsert, containsKey]
    have s4 : (AddChangeCallback
        ({ p with m_callbacks := [(0, cbB)], m_availableIDs := [],
                  nextCallbackID := 1 } : Property T) cbC).2 = 1 := by
      simp [AddChangeCallback]
    refine ⟨by rw [s1], ?_, ?_⟩
    · simp [s1, s2, s3]
    · simp [s1, s2, s3, s4]

/-- Witness for C7 on a fresh container: add/remove/add/add yields ids
0, then 0 again, then 1. -/
theorem callback_id_allocation_witness :
    ((mkProperty (0 : Nat)).m_availableIDs = [] ∧
      (AddChangeCallback (mkProperty (0 : Nat)) (sampleCallback 9)).2 = 0) ∧
    (AddChangeCallback (mkProperty (0 : Nat)) (sampleCallback 1)).2 = 0 ∧
    (AddChangeCallback (RemoveChangeCallback
        (AddChangeCallback (mkProperty (0 : Nat)) (sampleCallback 1)).1 0)
        (sampleCallback 2)).2 = 0 ∧
    (AddChangeCallback (AddChangeCallback (RemoveChangeCallback
        (AddChangeCallback (mkProperty (0 : Nat)) (sampleCallback 1)).1 0)
        (sampleCallback 2)).1 (sampleCallback 3)).2 = 1 := by
  have K := callback_id_allocation (mkProperty (0 : Nat)) (sampleCallback 9)
    (sampleCallback 1) (sampleCallback 2) (sampleCallback 3)
  exact ⟨⟨rfl, (K.1 rfl).1⟩, (K.2.2 rfl rfl rfl).1, (K.2.2 rfl rfl rfl).2.1,
    (K.2.2 rfl rfl rfl).2.2⟩

/-! Lemmas for the listener-registry invariant. -/

theorem containsKey_iff {T : Type} (l : List (CallbackID × ChangeCallback T))
    (id : CallbackID) :
    containsKey l id = true ↔ id ∈ l.map (fun e => e.1) := by
  simp [containsKey, List.any_eq_true, List.mem_map]

theorem mapInsert_keys_fresh {T : Type} (l : List (CallbackID × ChangeCallback T))
    (id : CallbackID) (cb : ChangeCallback T) (h : id ∉ l.map (fun e => e.1)) :
    (mapInsert l id cb).map (fun e => e.1) = l.map (fun e => e.1) ++ [id] := by
  have hck : containsKey l id = false :=
    Bool.eq_false_iff.mpr (fun hc => h ((containsKey_iff l id).mp hc))
  simp [mapInsert, hck]

theorem keys_filter_ne {T : Type} (l : List (CallbackID × ChangeCallback T))
    (id : CallbackID) :
    (l.filter (fun e => !(e.1 == id))).map (fun e => e.1) =
      (l.map (fun e => e.1)).filter (fun k => !(k == id)) := by
  induction l with
  | nil => rfl
  | cons e rest ih =>
    by_cases h : e.1 = id
    · simp [List.filter_cons, h, ih]
    · simp [List.filter_cons, h, ih]

theorem removeFirstByTag_spec {T : Type} (tag : Nat)
    (l : List (CallbackID × ChangeCallback T)) :
    ((removeFirstByTag l tag).2 = none ∧ (removeFirstByTag l tag).1 = l) ∨
    (∃ k l1 l2, (removeFirstByTag l tag).2 = some k ∧
      l.map (fun e => e.1) = l1 ++ k :: l2 ∧
      (removeFirstByTag l tag).1.map (fun e => e.1) = l1 ++ l2) := by
  induction l with
  | nil => exact Or.inl ⟨rfl, rfl⟩
  | cons e rest ih =>
    by_cases h : e.2.tag = tag
    · right
      exact ⟨e.1, [], rest.map (fun x => x.1), by simp [removeFirstByTag, h],
        by simp, by simp [removeFirstByTag, h]⟩
    · rcases ih with ⟨h1, h2⟩ | ⟨k, l1, l2, h1, h2, h3⟩
      · left
        constructor <;> simp [removeFirstByTag, h, h1, h2]
      · right
        exact ⟨k, e.1 :: l1, l2, by simp [removeFirstByTag, h, h1],
          by simp [h2], by simp [removeFirstByTag, h, h1, h3]⟩

theorem RegistryWF_preserved {T : Type} (p : Property T) (op : ListenerOp T)
    (h : RegistryWF p) : RegistryWF (applyListenerOp p op) := by
  obtain ⟨hdisj, hkb, hab, hknd, hand⟩ := h
  cases op with
  | add cb =>
    show RegistryWF (AddChangeCallback p cb).1
    cases hav : p.m_availableIDs with
    | nil =>
      have e : (AddChangeCallback p cb).1 =
          { p with m_callbacks := mapInsert p.m_callbacks p.nextCallbackID cb,
                   nextCallbackID := p.nextCallbackID + 1 } := by
        simp [AddChangeCallback, hav]
      have hfresh : p.nextCallbackID ∉ callbackKeys p := fun hm =>
        lt_irrefl _ (hkb _ hm)
      have hK : callbackKeys ({ p with
          m_callbacks := mapInsert p.m_callbacks p.nextCallbackID cb,
          nextCallbackID := p.nextCallbackID + 1 } : Property T) =
          callbackKeys p ++ [p.nextCallbackID] :=
        mapInsert_keys_fresh _ _ _ hfresh
      rw [e]
      refine ⟨?_, ?_, ?_, ?_, ?_⟩
      · intro id hm
        have hm' : id ∈ p.m_availableIDs → False := by
          rw [hav]; simp
        exact fun hc => hm' hc
      · intro id hm
        rw [hK] at hm
        rcases List.mem_append.mp hm with hm | hm
        · exact Nat.lt_succ_of_lt (hkb _ hm)
        · rw [List.mem_singleton.mp hm]
          exact Nat.lt_succ_self _
      · intro id hm
        have hm' : id ∈ p.m_availableIDs := hm
        rw [hav] at hm'
        simp at hm'
      · rw [hK, (List.perm_append_singleton _ _).nodup_iff, List.nodup_cons]
        exact ⟨hfresh, hknd⟩
      · exact hand
    | cons i rest =>
      have e : (AddChangeCallback p cb).1 =
          { p with m_callbacks := mapInsert p.m_callbacks i cb,
                   m_availableIDs := rest } := by
        simp [AddChangeCallback, hav]
      have hiav : i ∈ p.m_availableIDs := by rw [hav]; simp
      have hfresh : i ∉ callbackKeys p := fun hm => hdisj i hm hiav
      have hK : callbackKeys ({ p with
          m_callbacks := mapInsert p.m_callbacks i cb,
          m_availableIDs := rest } : Property T) = callbackKeys p ++ [i] :=
        mapInsert_keys_fresh _ _ _ hfresh
      have hnd' : (i :: rest).Nodup := by rw [← hav]; exact hand
      rw [e]
      refine ⟨?_, ?_, ?_, ?_, ?_⟩
      · intro id hm
        rw [hK] at hm
        rcases List.mem_append.mp hm with hm | hm
        · intro hc
          exact hdisj id hm (by rw [hav]; exact List.mem_cons_of_mem i hc)
        · rw [List.mem_singleton.mp hm]
          exact (List.nodup_cons.mp hnd').1
      · intro id hm
        rw [hK] at hm
        rcases List.mem_append.mp hm with hm | hm
        · exact hkb _ hm
        · rw [List.mem_singleton.mp hm]
          exact hab i hiav
      · intro id hm
        have hm' : id ∈ rest := hm
        exact hab id (by rw [hav]; exact List.mem_cons_of_mem i hm')
      · rw [hK, (List.perm_append_singleton _ _).nodup_iff, List.nodup_cons]
        exact ⟨hfresh, hknd⟩
      · exact (List.nodup_cons.mp hnd').2
  | removeId id =>
    show RegistryWF (RemoveChangeCallback p id)
    cases hck : containsKey p.m_callbacks id with
    | false =>
      have e : RemoveChangeCallback p id = p := by
        simp [RemoveChangeCallback, hck]
      rw [e]
      exact ⟨hdisj, hkb, hab, hknd, hand⟩
    | true =>
      have hmem : id ∈ callbackKeys p := (containsKey_iff _ _).mp hck
      have e : RemoveChangeCallback p id =
          { p with m_callbacks := p.m_callbacks.filter (fun e => !(e.1 == id)),
                   m_availableIDs := p.m_availableIDs ++ [id] } := by
        simp [RemoveChangeCallback, hck]
      have hK : callbackKeys ({ p with
          m_callbacks := p.m_callbacks.filter (fun e => !(e.1 == id)),
          m_availableIDs := p.m_availableIDs ++ [id] } : Property T) =
          (callbackKeys p).filter (fun k => !(k == id)) :=
        keys_filter_ne _ _
      rw [e]
      refine ⟨?_, ?_, ?_, ?_, ?_⟩
      · intro x hm
        rw [hK] at hm
        have hx := List.of_mem_filter hm
        have hxk := List.mem_of_mem_filter hm
        have hxid : x ≠ id := by simpa using hx
        intro hc
        rcases List.mem_append.mp hc with hc | hc
        · exact hdisj x hxk hc
        · exact hxid (List.mem_singleton.mp hc)
      · intro x hm
        rw [hK] at hm
        exact hkb _ (List.mem_of_mem_filter hm)
      · intro x hm
        have hm' : x ∈ p.m_availableIDs ++ [id] := hm
        rcases List.mem_append.mp hm' with hc | hc
        · exact hab _ hc
        · rw [List.mem_singleton.mp hc]
          exact hkb _ hmem
      · rw [hK]
        exact hknd.filter _
      · show (p.m_availableIDs ++ [id]).Nodup
        rw [(List.perm_append_singleton _ _).nodup_iff, List.nodup_cons]
        exact ⟨hdisj id hmem, hand⟩
  | removeCb cb =>
    show RegistryWF (RemoveChangeCallbackByCallback p cb)
    rcases removeFirstByTag_spec cb.tag p.m_callbacks with ⟨h1, _⟩ |
      ⟨k, l1, l2, h1, h2, h3⟩
    · have e : RemoveChangeCallbackByCallback p cb = p := by
        simp [RemoveChangeCallbackByCallback, h1]
      rw [e]
      exact ⟨hdisj, hkb, hab, hknd, hand⟩
    · have e : RemoveChangeCallbackByCallback p cb =
          { p with m_callbacks := (removeFirstByTag p.m_callbacks cb.tag).1,
                   m_availableIDs := p.m_availableIDs ++ [k] } := by
        simp [RemoveChangeCallbackByCallback, h1]
      have hkmem : k ∈ callbackKeys p := by
        show k ∈ p.m_callbacks.map (fun e => e.1)
        rw [h2]
        simp
      have hmid : k ∉ l1 ++ l2 ∧ (l1 ++ l2).Nodup := by
        have := hknd
        rw [show callbackKeys p = p.m_callbacks.map (fun e => e.1) from rfl, h2] at this
        exact List.nodup_cons.mp (List.nodup_middle.mp this)
      rw [e]
      refine ⟨?_, ?_, ?_, ?_, ?_⟩
      · intro x hm
        have hm' : x ∈ l1 ++ l2 := by
          have : x ∈ (removeFirstByTag p.m_callbacks cb.tag).1.map (fun e => e.1) := hm
          rwa [h3] at this
        have hxk : x ∈ callbackKeys p := by
          show x ∈ p.m_callbacks.map (fun e => e.1)
          rw [h2]
          rcases List.mem_append.mp hm' with hc | hc
          · exact List.mem_append.mpr (Or.inl hc)
          · exact List.mem_append.mpr (Or.inr (List.mem_cons_of_mem k hc))
        intro hc
        rcases List.mem_append.mp hc with hc | hc
        · exact hdisj x hxk hc
        · rw [List.mem_singleton.mp hc] at hm'
          exact hmid.1 hm'
      · intro x hm
        have hm' : x ∈ l1 ++ l2 := by
          have : x ∈ (removeFirstByTag p.m_callbacks cb.tag).1.map (fun e => e.1) := hm
          rwa [h3] at this
        refine hkb x ?_
        show x ∈ p.m_callbacks.map (fun e => e.1)
        rw [h2]
        rcases List.mem_append.mp hm' with hc | hc
        · exact List.mem_append.mpr (Or.inl hc)
        · exact List.mem_append.mpr (Or.inr (List.mem_cons_of_mem k hc))
      · intro x hm
        have hm' : x ∈ p.m_availableIDs ++ [k] := hm
        rcases List.mem_append.mp hm' with hc | hc
        · exact hab _ hc
        · rw [List.mem_singleton.mp hc]
          exact hkb _ hkmem
      · show ((removeFirstByTag p.m_callbacks cb.tag).1.map (fun e => e.1)).Nodup
        rw [h3]
        exact hmid.2
      · show (p.m_availableIDs ++ [k]).Nodup
        rw [(List.perm_append_singleton _ _).nodup_iff, List.nodup_cons]
        exact ⟨hdisj k hkmem, hand⟩

theorem RegistryWF_ops {T : Type} (ops : List (ListenerOp T)) :
    ∀ p : Property T, RegistryWF p → RegistryWF (applyListenerOps p ops) := by
  induction ops with
  | nil => intro p h; exact h
  | cons op rest ih =>
    intro p h
    exact ih _ (RegistryWF_preserved p op h)

theorem RegistryWF_mkProperty {T : Type} (v : T) : RegistryWF (mkProperty v) := by
  refine ⟨?_, ?_, ?_, ?_, ?_⟩ <;> simp [mkProperty, callbackKeys]

/-- C8: the identifiers registered in the callback map and the identifiers
sitting in the freelist are disjoint in every state reachable from a fresh
container by any sequence of `AddChangeCallback`, `RemoveChangeCallback`
by id, and `RemoveChangeCallback` by callback value; moreover removing a
nonexistent id is a strict no-op that pushes nothing onto the freelist. -/
theorem listeners_freelist_disjoint {T : Type} (v : T) (ops : List (ListenerOp T)) :
    (∀ id ∈ callbackKeys (applyListenerOps (mkProperty v) ops),
      id ∉ (applyListenerOps (mkProperty v) ops).m_availableIDs) ∧
    (∀ (q : Property T) (id : CallbackID), containsKey q.m_callbacks id = false →
      RemoveChangeCallback q id = q) := by
  constructor
  · exact (RegistryWF_ops ops (mkProperty v) (RegistryWF_mkProperty v)).1
  · intro q id hck
    simp [RemoveChangeCallback, hck]

/-- Witness for C8: after registering three listeners, releasing id 0 (so
it is reused) and removing one by callback value, the registry holds id 0
and the freelist holds id 1 — and the registered id 0 is indeed not in the
freelist; removing an id from an empty registry changes nothing. -/
theorem listeners_freelist_disjoint_witness :
    callbackKeys (applyListenerOps (mkProperty (0 : Nat)) opsC8) = [0] ∧
    (applyListenerOps (mkProperty (0 : Nat)) opsC8).m_availableIDs = [1] ∧
    (0 ∉ (applyListenerOps (mkProperty (0 : Nat)) opsC8).m_availableIDs) ∧
    RemoveChangeCallback (mkProperty (0 : Nat)) 5 = mkProperty 0 :=
  ⟨by decide, by decide,
   (listeners_freelist_disjoint 0 opsC8).1 0 (by decide),
   (listeners_freelist_disjoint 0 opsC8).2 (mkProperty 0) 5 rfl⟩

/-! Helper lemmas about the by-reference argument and the listener events
of a committed write. -/

theorem notifyCallbacks_listenerEventsOf {T : Type} (prop : Nat)
    (cbs : List (CallbackID × ChangeCallback T)) :
    ∀ o n, listenerEventsOf (notifyCallbacks prop cbs o n).trace =
      (notifyCallbacks prop cbs o n).trace := by
  induction cbs with
  | nil => intro o n; rfl
  | cons e rest ih =>
    intro o n
    obtain ⟨id, cb⟩ := e
    simp [notifyCallbacks, listenerEventsOf, ih]

theorem assign_listenerEventsOf_committed {T : Type} [DecidableEq T] (w : World T)
    (src : Nat) (v : T) (hne : (w src).m_value ≠ v)
    (hacc : applyValidator (w src) (applyCoerce (w src) v) = true) :
    listenerEventsOf (assign w src v).trace =
      (notifyCallbacks src (w src).m_callbacks (w src).m_value
        (applyCoerce (w src) v)).trace := by
  rw [assign_commit_case w src v hne hacc]
  show listenerEventsOf (_ ++ _ ++ _) = _
  rw [listenerEventsOf_append, listenerEventsOf_append, listenerEventsOf_append,
    listenerEventsOf_coerceEvents, listenerEventsOf_validateEvents,
    notifyCallbacks_listenerEventsOf, notifyBindings_listenerEventsOf]
  simp

theorem assign_value_src {T : Type} [DecidableEq T] (w : World T) (src : Nat) (v : T)
    (hne : (w src).m_value ≠ v)
    (hacc : applyValidator (w src) (applyCoerce (w src) v) = true)
    (hself : src ∉ (w src).m_bindings) :
    ((assign w src v).world src).m_value = applyCoerce (w src) v := by
  rw [assign_commit_case w src v hne hacc]
  show ((notifyBindings _ _ _).world src).m_value = _
  rw [notifyBindings_world_not_mem _ _ _ _ hself]
  simp [updateW]

theorem propagateEvents_head_cons {T : Type} [DecidableEq T] (w1 : World T)
    (bsl : List Nat) (nv : T) (b : Nat) (bs : List Nat) (h : bsl = b :: bs) :
    (propagateEvents (notifyBindings w1 bsl nv).trace).head? =
      some (Event.propagate b nv) := by
  subst h
  exact notifyBindings_first_offer w1 b bs nv

theorem assign_first_offer {T : Type} [DecidableEq T] (w : World T) (src : Nat)
    (v : T) (b : Nat) (bs : List Nat) (hne : (w src).m_value ≠ v)
    (hacc : applyValidator (w src) (applyCoerce (w src) v) = true)
    (hb : (w src).m_bindings = b :: bs) :
    (propagateEvents (assign w src v).trace).head? =
      some (Event.propagate b (notifyCallbacks src (w src).m_callbacks
        (w src).m_value (applyCoerce (w src) v)).newValue) := by
  rw [assign_commit_case w src v hne hacc]
  show (propagateEvents (_ ++ _ ++ _)).head? = _
  rw [propagateEvents_append, propagateEvents_append, propagateEvents_append,
    propagateEvents_coerceEvents, propagateEvents_validateEvents,
    notifyCallbacks_propagateEvents]
  simp only [List.nil_append, List.append_nil]
  exact propagateEvents_head_cons _ _ _ b bs hb

theorem notifyBindings_arg_nil {T : Type} [DecidableEq T] (w1 : World T)
    (bsl : List Nat) (nv : T) (h : bsl = []) :
    (notifyBindings w1 bsl nv).newValue = nv := by
  subst h
  rfl

theorem assign_arg_no_bindings {T : Type} [DecidableEq T] (w : World T) (src : Nat)
    (v : T) (hne : (w src).m_value ≠ v)
    (hacc : applyValidator (w src) (applyCoerce (w src) v) = true)
    (hb : (w src).m_bindings = []) :
    (assign w src v).arg =
      (notifyCallbacks src (w src).m_callbacks (w src).m_value
        (applyCoerce (w src) v)).newValue := by
  rw [assign_commit_case w src v hne hacc]
  show (notifyBindings _ _ _).newValue = _
  exact notifyBindings_arg_nil _ _ _ hb

theorem notifyBindings_arg_single_coerced {T : Type} [DecidableEq T] (w1 : World T)
    (bsl : List Nat) (nv : T) (b : Nat) (h : bsl = [b])
    (hne : (w1 b).m_value ≠ nv) :
    (notifyBindings w1 bsl nv).newValue = applyCoerce (w1 b) nv := by
  subst h
  rw [notifyBindings_single, if_neg hne]
  by_cases h2 : applyValidator (w1 b) (applyCoerce (w1 b) nv) = true
  · rw [if_pos h2]
  · rw [if_neg h2]

/-- C9: the `newValue` reference passed to listeners aliases the caller's
argument.  For a committed write on a container with two listeners: the
stored value is the source-coerced candidate and is unaffected by listener
mutations; the first listener receives the original `(old, new)` pair and
the second listener receives the pair exactly as the first listener left
it; the first bound target visited during the same write is offered the
value as left by the last listener; and with no bindings, that value is
what the caller's variable holds after the write returns. -/
theorem listener_mutation_threading {T : Type} [DecidableEq T] (w : World T)
    (src : Nat) (v : T) (i1 i2 : CallbackID) (cb1 cb2 : ChangeCallback T)
    (hcb : (w src).m_callbacks = [(i1, cb1), (i2, cb2)])
    (hne : (w src).m_value ≠ v)
    (hacc : applyValidator (w src) (applyCoerce (w src) v) = true)
    (hself : src ∉ (w src).m_bindings) :
    ((assign w src v).world src).m_value = applyCoerce (w src) v ∧
    listenerEventsOf (assign w src v).trace =
      [Event.listener src i1 (w src).m_value (applyCoerce (w src) v),
       Event.listener src i2
         (cb1.fn (w src).m_value (applyCoerce (w src) v)).1
         (cb1.fn (w src).m_value (applyCoerce (w src) v)).2] ∧
    (∀ b bs, (w src).m_bindings = b :: bs →
      (propagateEvents (assign w src v).trace).head? =
        some (Event.propagate b
          (cb2.fn (cb1.fn (w src).m_value (applyCoerce (w src) v)).1
                  (cb1.fn (w src).m_value (applyCoerce (w src) v)).2).2)) ∧
    ((w src).m_bindings = [] →
      (assign w src v).arg =
        (cb2.fn (cb1.fn (w src).m_value (applyCoerce (w src) v)).1
                (cb1.fn (w src).m_value (applyCoerce (w src) v)).2).2) := by
  refine ⟨assign_value_src w src v hne hacc hself, ?_, ?_, ?_⟩
  · rw [assign_listenerEventsOf_committed w src v hne hacc, hcb]
    rfl
  · intro b bs hbb
    rw [assign_first_offer w src v b bs hne hacc hbb, hcb]
    rfl
  · intro hb0
    rw [assign_arg_no_bindings w src v hne hacc hb0, hcb]
    rfl

/-- Witness for C9: container 0 holds 0, has listeners `new := new + 1`
(id 0) and `new := new * 2` (id 1), and is bound to container 1.  Writing
5 stores 5, the second listener receives 6, container 1 is offered 12. -/
theorem listener_mutation_threading_witness :
    ((assign wC9 0 5).world 0).m_value = 5 ∧
    listenerEventsOf (assign wC9 0 5).trace =
      [Event.listener 0 0 0 5, Event.listener 0 1 0 6] ∧
    (propagateEvents (assign wC9 0 5).trace).head? = some (Event.propagate 1 12) := by
  have K := listener_mutation_threading wC9 0 5 0 1
    ⟨1, fun o n => (o, n + 1)⟩ ⟨2, fun o n => (o, n * 2)⟩ rfl (by decide) rfl (by decide)
  exact ⟨K.1, K.2.1, K.2.2.1 1 [] rfl⟩

/-- C10 counterexample: the claim that after a write the caller's variable
holds the result of applying the source's coercer and the visited targets'
coercers is false — listener mutations also reach the caller's variable.
Container 0 of `wC10` has no coercer and no bindings (so the claim
predicts the argument keeps the written value 5), but its single listener
overwrites `newValue` with 42, and after the write the caller's argument
holds 42. -/
theorem arg_coercers_only_refuted :
    (wC10 0).m_coerceCallback = none ∧
    (wC10 0).m_bindings = [] ∧
    (assign wC10 0 5).arg = 42 ∧
    (42 : Nat) ≠ 5 :=
  ⟨rfl, rfl, by decide, by decide⟩

/-- C10 amended: the assignment operator takes the new value by non-const
reference and mutates the caller's argument in place; after the write the
caller's variable holds the candidate as transformed by the source's
coercer, by the mutations of the listeners invoked on a committed write,
and by the coercers of bound targets visited during propagation — so it
may differ from the value originally passed.  Each transformer is
exhibited: a coerced-then-rejected write leaves the source-coerced value
in the argument; a committed write with one listener and no bindings
leaves the listener-mutated value; and a committed write with no
listeners and one bound coercing target whose value differs leaves the
target-coerced value. -/
theorem arg_reflects_pipeline_mutations {T : Type} [DecidableEq T] (w : World T)
    (src : Nat) (v : T) (hne : (w src).m_value ≠ v) :
    (∀ c, (w src).m_coerceCallback = some c →
      applyValidator (w src) (c v) = false →
      (assign w src v).arg = c v) ∧
    (∀ i cb, (w src).m_callbacks = [(i, cb)] → (w src).m_bindings = [] →
      applyValidator (w src) (applyCoerce (w src) v) = true →
      (assign w src v).arg = (cb.fn (w src).m_value (applyCoerce (w src) v)).2) ∧
    (∀ b c, (w src).m_bindings = [b] → (w src).m_callbacks = [] →
      applyValidator (w src) (applyCoerce (w src) v) = true →
      (w b).m_coerceCallback = some c → b ≠ src →
      (w b).m_value ≠ applyCoerce (w src) v →
      (assign w src v).arg = c (applyCoerce (w src) v)) := by
  refine ⟨?_, ?_, ?_⟩
  · intro c hc hrej
    have h1 : applyCoerce (w src) v = c v := by simp [applyCoerce, hc]
    have hrej' : applyValidator (w src) (applyCoerce (w src) v) = false := by
      rw [h1]
      exact hrej
    rw [assign_reject_case w src v hne hrej']
    exact h1
  · intro i cb hcb hb hacc
    rw [assign_arg_no_bindings w src v hne hacc hb, hcb]
    rfl
  · intro b c hb hcb hacc hc hbsrc hvb
    rw [assign_commit_case w src v hne hacc]
    show (notifyBindings _ _ _).newValue = _
    have hnv : (notifyCallbacks src (w src).m_callbacks (w src).m_value
        (applyCoerce (w src) v)).newValue = applyCoerce (w src) v := by
      rw [hcb]
      rfl
    rw [hnv]
    have hw1b : updateW w src { w src with m_value := applyCoerce (w src) v } b = w b := by
      simp [updateW, hbsrc]
    have hvb' : ((updateW w src { w src with m_value := applyCoerce (w src) v }) b).m_value
        ≠ applyCoerce (w src) v := by
      rw [hw1b]
      exact hvb
    rw [notifyBindings_arg_single_coerced _ _ _ b hb hvb', hw1b]
    simp [applyCoerce, hc]

/-- Witness for C10 amended: on `wC10` a committed write of 5 leaves the
listener-mutated 42 in the caller's argument, and on `wC10b` a committed
write of 5 propagated into the coercing target leaves 6 there. -/
theorem arg_reflects_pipeline_mutations_witness :
    (assign wC10 0 5).arg = 42 ∧
    (assign wC10b 0 5).arg = 6 := by
  have K10 := (arg_reflects_pipeline_mutations wC10 0 5 (by decide)).2.1
    0 ⟨7, fun o _ => (o, 42)⟩ rfl rfl rfl
  have K6 := (arg_reflects_pipeline_mutations wC10b 0 5 (by decide)).2.2
    1 (fun v => v + 1) rfl rfl rfl rfl (by decide) (by decide)
  exact ⟨K10, K6⟩

end PropertyModel
